import Mathlib

/-!
Verification development for the smart-transport attendance backend
(src/server.js).  The embedding models the four core routes — QR scan
(POST /api/qr/scan), monthly attendance summary
(GET /api/attendance/:userId/:month/:year), the auto-absent sweep
(POST /api/auto-absent) and the roster listing (GET /api/users/:bus) —
as pure functions over an explicit store state, together with the JSON
QR payload codec used by registration and scan.
-/

namespace SmartTransport

/-! ## Local wall-clock instants

JavaScript Date values are compared by their underlying timestamp; for
normalized local civil times this order coincides with lexicographic
order on (year, month, day, hour, minute, second, millisecond).  We
represent an instant by those seven fields and compare
lexicographically.  Daylight-saving anomalies are outside the model. -/

structure DateTime where
  year : Int
  month : Int
  day : Int
  hour : Int
  minute : Int
  second : Int
  ms : Int
deriving DecidableEq, Repr

/-- Strict comparison of instants (JavaScript date1 < date2),
lexicographic on the seven fields. -/
def dtLt (a b : DateTime) : Bool :=
  decide (a.year < b.year) || (decide (a.year = b.year) &&
  (decide (a.month < b.month) || (decide (a.month = b.month) &&
  (decide (a.day < b.day) || (decide (a.day = b.day) &&
  (decide (a.hour < b.hour) || (decide (a.hour = b.hour) &&
  (decide (a.minute < b.minute) || (decide (a.minute = b.minute) &&
  (decide (a.second < b.second) || (decide (a.second = b.second) &&
  decide (a.ms < b.ms))))))))))))

/-- Non-strict comparison of instants (JavaScript date1 <= date2,
the $gte / $lte query operators). -/
def dtLe (a b : DateTime) : Bool :=
  dtLt a b || decide (a = b)

/-- Model of `today.setHours(0, 0, 0, 0)` (server.js lines 141 and 186):
today's local midnight. -/
def dayStart (now : DateTime) : DateTime :=
  { year := now.year, month := now.month, day := now.day,
    hour := 0, minute := 0, second := 0, ms := 0 }

/-- Model of `today.setHours(23, 59, 59, 999)` (server.js lines 142 and
187): the final millisecond of today, used as the exclusive upper bound
of the existence query (`$lt: end`). -/
def dayEndCheck (now : DateTime) : DateTime :=
  { year := now.year, month := now.month, day := now.day,
    hour := 23, minute := 59, second := 59, ms := 999 }

/-- The date predicate of the existence query
`{ $gte: start, $lt: end }` at server.js lines 144-147 and 191-194. -/
def inToday (now d : DateTime) : Bool :=
  dtLe (dayStart now) d && dtLt d (dayEndCheck now)

/-- Two instants fall on the same calendar day. -/
def sameDay (a b : DateTime) : Prop :=
  a.year = b.year ∧ a.month = b.month ∧ a.day = b.day

instance (a b : DateTime) : Decidable (sameDay a b) := by
  unfold sameDay; infer_instance

/-! ## The QR payload codec

Registration stores `JSON.stringify({ userId, name, bus, role })`
(server.js lines 78-79) and the scan route runs `JSON.parse` on the
scanned string (line 123).  Every payload this system produces is a
flat JSON object whose values are strings, so we model the codec on
that fragment of JSON — flat objects with string keys and string
values, plus the `null` literal (which `JSON.parse` accepts and which
the scan route then dereferences).  `JSON.stringify` escapes only the
quote and backslash characters when every character of the encoded
strings has code point at least 32, which is the well-formedness
assumption used below. -/

/-- The double-quote character. -/
def qc : Char := Char.ofNat 34

/-- The backslash character. -/
def bsl : Char := Char.ofNat 92

/-- The opening curly bracket. -/
def lbr : Char := Char.ofNat 123

/-- The closing curly bracket. -/
def rbr : Char := Char.ofNat 125

/-- JSON string escaping as performed by `JSON.stringify` on strings
without control characters: quote and backslash are preceded by a
backslash, everything else is copied. -/
def escChars : List Char → List Char
  | [] => []
  | c :: cs => if c = qc ∨ c = bsl then bsl :: c :: escChars cs else c :: escChars cs

/-- One `"key":"value"` member of a stringified flat object. -/
def memberChars (k v : String) : List Char :=
  qc :: (escChars k.data ++ qc :: ':' :: qc :: (escChars v.data ++ [qc]))

/-- Comma-joined members, as emitted by `JSON.stringify` for a
non-empty object. -/
def joinMembers : List (String × String) → List Char
  | [] => []
  | [(k, v)] => memberChars k v
  | (k, v) :: rest => memberChars k v ++ ',' :: joinMembers rest

/-- Model of `JSON.stringify({ userId, name, bus, role })` at
server.js line 78-79: object members are emitted in insertion order. -/
def encodeQr (userId name bus role : String) : String :=
  String.mk (lbr :: (joinMembers
    [("userId", userId), ("name", name), ("bus", bus), ("role", role)] ++ [rbr]))

/-- Parse the body of a JSON string after its opening quote, undoing
the escaping above; rejects raw control characters as `JSON.parse`
does.  Returns the decoded characters and the input remaining after
the closing quote. -/
def parseStringBody : List Char → Option (List Char × List Char)
  | [] => none
  | c :: rest =>
    if c = qc then some ([], rest)
    else if c = bsl then
      match rest with
      | [] => none
      | c2 :: rest2 =>
        if c2 = qc ∨ c2 = bsl then
          match parseStringBody rest2 with
          | some (s, r) => some (c2 :: s, r)
          | none => none
        else none
    else if c.toNat < 32 then none
    else
      match parseStringBody rest with
      | some (s, r) => some (c :: s, r)
      | none => none

/-- Parse one `"key":"value"` member. -/
def parseKV (l : List Char) : Option (String × String × List Char) :=
  match l with
  | [] => none
  | c :: rest =>
    if c = qc then
      match parseStringBody rest with
      | some (k, c1 :: c2 :: rest2) =>
        if c1 = ':' ∧ c2 = qc then
          match parseStringBody rest2 with
          | some (v, rest3) => some (String.mk k, String.mk v, rest3)
          | none => none
        else none
      | _ => none
    else none

/-- Parse a comma-separated list of members; the fuel argument bounds
the number of members and is instantiated with the input length. -/
def parseMembers : Nat → List Char → Option (List (String × String) × List Char)
  | 0, _ => none
  | fuel + 1, l =>
    match parseKV l with
    | none => none
    | some (k, v, rest) =>
      match rest with
      | [] => some ([(k, v)], [])
      | c :: rest2 =>
        if c = ',' then
          match parseMembers fuel rest2 with
          | some (ms, r) => some ((k, v) :: ms, r)
          | none => none
        else some ([(k, v)], c :: rest2)

/-- A value of the modelled JSON fragment: the null literal or a flat
object with string fields. -/
inductive JValue where
  | nullV : JValue
  | objV : List (String × String) → JValue
deriving DecidableEq, Repr

/-- The characters of the JSON null literal. -/
def nullChars : List Char := ['n', 'u', 'l', 'l']

/-- Model of `JSON.parse` (server.js line 123) on the modelled
fragment: the null literal, or a braced list of string members. -/
def parseJson (s : String) : Option JValue :=
  let l := s.data
  if l = nullChars then some JValue.nullV
  else
    match l with
    | [] => none
    | c :: rest =>
      if c = lbr then
        if rest = [rbr] then some (JValue.objV [])
        else
          match parseMembers (rest.length + 1) rest with
          | some (ms, r) => if r = [rbr] then some (JValue.objV ms) else none
          | none => none
      else none

/-- JavaScript property lookup on an object built by `JSON.parse`:
with duplicate keys the last occurrence wins. -/
def lookupField : List (String × String) → String → Option String
  | [], _ => none
  | p :: rest, key =>
    match lookupField rest key with
    | some v => some v
    | none => if p.1 = key then some p.2 else none

/-- The four fields the scan route reads off a decoded payload;
`userId` is checked non-empty (line 128), the other properties may be
absent (JavaScript yields undefined, modelled as none). -/
structure DecodedPayload where
  userId : String
  name : Option String
  bus : Option String
  role : Option String
deriving DecidableEq, Repr

/-- Outcome of the decode stage of the scan route, lines 121-128:
parse failure, a payload that parses to null (whose property access
throws), a falsy userId property, or a decoded payload. -/
inductive DecodeResult where
  | malformed : DecodeResult
  | nullPayload : DecodeResult
  | missingUserId : DecodeResult
  | ok : DecodedPayload → DecodeResult
deriving DecidableEq, Repr

/-- Lines 121-128 of server.js: `JSON.parse` the scanned string, then
test `!parsed.userId` (falsy exactly for an absent property or the
empty string).  Accessing a property of null throws a TypeError, which
the route surfaces through its outer catch as a generic 500. -/
def decodePayload (p : String) : DecodeResult :=
  match parseJson p with
  | none => DecodeResult.malformed
  | some JValue.nullV => DecodeResult.nullPayload
  | some (JValue.objV fields) =>
    match lookupField fields "userId" with
    | none => DecodeResult.missingUserId
    | some uid =>
      if uid = "" then DecodeResult.missingUserId
      else DecodeResult.ok
        { userId := uid
          name := lookupField fields "name"
          bus := lookupField fields "bus"
          role := lookupField fields "role" }

/-! ## The data model (server.js lines 41-60) -/

/-- The attendance status enum of both schemas. -/
inductive Status where
  | Present : Status
  | Absent : Status
deriving DecidableEq, Repr

/-- The role enum of the user schema. -/
inductive Role where
  | user : Role
  | admin : Role
deriving DecidableEq, Repr

/-- One document of the User collection (userSchema, lines 41-49). -/
structure Identity where
  name : String
  userId : String
  bus : String
  role : Role
  password : String
  qrCode : Option String
  attendance : Status
deriving DecidableEq, Repr

/-- One document of the Attendance collection (attendanceSchema,
lines 53-58); `date` defaults to the write-time clock. -/
structure LedgerEntry where
  userId : String
  bus : String
  date : DateTime
  status : Status
deriving DecidableEq, Repr

/-- The document store: both collections in insertion order. -/
structure Store where
  users : List Identity
  ledger : List LedgerEntry
deriving DecidableEq, Repr

/-- Mongoose `findOne({ userId })`: the first user with the given
key (lines 96 and 130). -/
def findUser (users : List Identity) (uid : String) : Option Identity :=
  users.find? (fun u => u.userId == uid)

/-- Lines 137-138: set `attendance = "Present"` on the user document
returned by `findOne` and save it — the first user with the key is
updated in place. -/
def markPresent : List Identity → String → List Identity
  | [], _ => []
  | u :: rest, uid =>
    if u.userId == uid then { u with attendance := Status.Present } :: rest
    else u :: markPresent rest uid

/-- The filter of the existence query at lines 144-147 / 191-194:
same userId and date in today's query window. -/
def todayPred (uid : String) (now : DateTime) (e : LedgerEntry) : Bool :=
  e.userId == uid && inToday now e.date

/-- `Attendance.findOne({ userId, date: { $gte: start, $lt: end } })`. -/
def findToday (led : List LedgerEntry) (uid : String) (now : DateTime) : Option LedgerEntry :=
  led.find? (todayPred uid now)

/-- Number of ledger entries for a user inside today's query window
(verification-side counting helper). -/
def countToday (led : List LedgerEntry) (uid : String) (now : DateTime) : Nat :=
  led.countP (todayPred uid now)

/-- Outcome of the scan route, by response. -/
inductive ScanResult where
  | badRequest : ScanResult
  | malformed : ScanResult
  | missingUserId : ScanResult
  | userNotFound : ScanResult
  | groupMismatch : ScanResult
  | serverError : ScanResult
  | okScan : String → String → ScanResult
deriving DecidableEq, Repr

/-- POST /api/qr/scan (server.js lines 115-155), with `now` the
process clock at the time of the request.  Order of effects follows
the source: empty-input check, JSON parse, userId check, user lookup,
bus comparison against the admin's bus, attendance flag update, ledger
existence check, conditional insert (the inserted entry takes its bus
from the stored user document and its date from the write-time
clock). -/
def scan (s : Store) (scannedData adminBus : String) (now : DateTime) : ScanResult × Store :=
  if scannedData = "" ∨ adminBus = "" then (ScanResult.badRequest, s)
  else
    match decodePayload scannedData with
    | DecodeResult.malformed => (ScanResult.malformed, s)
    | DecodeResult.nullPayload => (ScanResult.serverError, s)
    | DecodeResult.missingUserId => (ScanResult.missingUserId, s)
    | DecodeResult.ok pl =>
      match findUser s.users pl.userId with
      | none => (ScanResult.userNotFound, s)
      | some u =>
        if pl.bus ≠ some adminBus then (ScanResult.groupMismatch, s)
        else
          let users2 := markPresent s.users pl.userId
          let led2 :=
            if (findToday s.ledger u.userId now).isSome then s.ledger
            else s.ledger ++
              [{ userId := u.userId, bus := u.bus, date := now, status := Status.Present }]
          (ScanResult.okScan u.name u.bus, { users := users2, ledger := led2 })

/-- The loop of POST /api/auto-absent (lines 190-196): for each user
in turn, query the current ledger for an entry in today's window and
insert an Absent entry when none exists.  The query at each step runs
against the store as already extended by earlier iterations. -/
def sweepLoop (now : DateTime) : List Identity → List LedgerEntry → List LedgerEntry
  | [], led => led
  | u :: rest, led =>
    sweepLoop now rest
      (if (findToday led u.userId now).isSome then led
       else led ++ [{ userId := u.userId, bus := u.bus, date := now, status := Status.Absent }])

/-- POST /api/auto-absent (server.js lines 183-202): iterate over
`User.find({ role: "user" })` and back-fill Absent entries. -/
def autoAbsent (s : Store) (now : DateTime) : Store :=
  { s with ledger := sweepLoop now (s.users.filter (fun u => u.role == Role.user)) s.ledger }

/-- Model of `new Date(year, month, 0).getDate()` at server.js
line 166: for 1 <= month <= 12 the ECMAScript date normalization makes
this the number of days of the 1-based month `month` of `year`, with
the proleptic-Gregorian leap rule (ECMA-262 computes the calendar with
a non-negative mathematical modulo, matching Int.emod). -/
def daysInMonth (year month : Int) : Int :=
  if month = 2 then
    (if (year % 4 = 0 ∧ ¬ year % 100 = 0) ∨ year % 400 = 0 then 29 else 28)
  else if month = 4 ∨ month = 6 ∨ month = 9 ∨ month = 11 then 30
  else 31

/-- `new Date(year, month - 1, 1)` at line 161: first day of the
month, local midnight. -/
def monthStart (year month : Int) : DateTime :=
  { year := year, month := month, day := 1, hour := 0, minute := 0, second := 0, ms := 0 }

/-- `new Date(year, month, 0, 23, 59, 59)` at line 162: last day of
the month at 23:59:59.000 local. -/
def monthEnd (year month : Int) : DateTime :=
  { year := year, month := month, day := daysInMonth year month,
    hour := 23, minute := 59, second := 59, ms := 0 }

/-- Response of GET /api/attendance/:userId/:month/:year. -/
structure Summary where
  userId : String
  month : Int
  year : Int
  totalDays : Int
  presentDays : Int
  absentDays : Int
  details : List LedgerEntry
deriving DecidableEq, Repr

/-- GET /api/attendance/:userId/:month/:year (server.js lines
158-180): fetch the entries of the user in the inclusive month window
(`$gte: start, $lte: end`), count the Present ones, and subtract from
the day count of the month. -/
def monthlySummary (s : Store) (uid : String) (month year : Int) : Summary :=
  let start := monthStart year month
  let stop := monthEnd year month
  let records := s.ledger.filter
    (fun e => e.userId == uid && dtLe start e.date && dtLe e.date stop)
  let presentDays : Int := (records.filter (fun r => r.status == Status.Present)).length
  let totalDays := daysInMonth year month
  { userId := uid, month := month, year := year,
    totalDays := totalDays, presentDays := presentDays,
    absentDays := totalDays - presentDays, details := records }

/-- The projection `"-password -qrCode"` of the roster listing
(server.js line 208): every schema field except the credential hash
and the QR payload. -/
structure PublicIdentity where
  name : String
  userId : String
  bus : String
  role : Role
  attendance : Status
deriving DecidableEq, Repr

/-- Project a user document through `"-password -qrCode"`. -/
def publicView (u : Identity) : PublicIdentity :=
  { name := u.name, userId := u.userId, bus := u.bus,
    role := u.role, attendance := u.attendance }

/-- GET /api/users/:bus (server.js lines 205-213):
`User.find({ bus, role: "user" }, "-password -qrCode")`; the route
only reads, so the store is returned unchanged. -/
def listByGroup (s : Store) (bus : String) : List PublicIdentity × Store :=
  ((s.users.filter (fun u => u.bus == bus && u.role == Role.user)).map publicView, s)

/-- Spec-side day count, written from the words of the reporting
contract: the true number of calendar days of the month, by the
standard leap-year rule, for comparison with the implementation-side
daysInMonth. -/
def specDaysInMonth (year month : Int) : Int :=
  if month = 1 ∨ month = 3 ∨ month = 5 ∨ month = 7 ∨ month = 8 ∨ month = 10 ∨ month = 12
    then 31
  else if month ≠ 2 then 30
  else if (4 ∣ year ∧ ¬ (100 ∣ year)) ∨ 400 ∣ year then 29
  else 28

/-- Well-formed strings for the codec round trip: no control
characters, so that `JSON.stringify` escapes exactly the quote and the
backslash. -/
def jsonSafe (s : String) : Prop :=
  ∀ c ∈ s.data, 32 ≤ c.toNat

instance (s : String) : Decidable (jsonSafe s) := by
  unfold jsonSafe; infer_instance

/-! ## Concrete sample data used by witnesses and counterexamples -/

/-- A request instant on the 2024 leap day. -/
def demoNow : DateTime := ⟨2024, 2, 29, 8, 30, 0, 0⟩

/-- A later instant on the same calendar day. -/
def demoNow2 : DateTime := ⟨2024, 2, 29, 17, 45, 0, 500⟩

/-- The QR payload of the registered sample user. -/
def demoPayload : String := encodeQr "u1" "Alice" "B1" "user"

/-- A registered sample user on bus B1. -/
def demoU : Identity :=
  { name := "Alice", userId := "u1", bus := "B1", role := Role.user,
    password := "hash1", qrCode := some demoPayload, attendance := Status.Absent }

/-- A store holding only the sample user. -/
def demoStore : Store := { users := [demoU], ledger := [] }

/-- An empty store. -/
def emptyStore : Store := { users := [], ledger := [] }

/-- A payload naming an identity key that is not registered. -/
def ghostPayload : String := encodeQr "ghost" "G" "B1" "user"

/-- A payload encoded while its user was on bus B1. -/
def c8Payload : String := encodeQr "u2" "Bob" "B1" "user"

/-- The same user after an out-of-band reassignment to bus B9; the
stored QR payload still claims B1. -/
def c8User : Identity :=
  { name := "Bob", userId := "u2", bus := "B9", role := Role.user,
    password := "hash2", qrCode := some c8Payload, attendance := Status.Absent }

/-- A store holding the reassigned user. -/
def c8Store : Store := { users := [c8User], ledger := [] }

/-- A Present ledger entry for the sample user written earlier on the
same day. -/
def sweepEntry : LedgerEntry :=
  { userId := "u1", bus := "B1", date := demoNow, status := Status.Present }

/-- A store where the first user already has a Present entry today and
the second has none. -/
def sweepStore : Store := { users := [demoU, c8User], ledger := [sweepEntry] }

/-- A store whose January 2024 window holds 32 Present rows for one
identity (duplicates as produced by the §5 race). -/
def c10Store : Store :=
  { users := [],
    ledger := List.replicate 32
      { userId := "u1", bus := "B1", date := ⟨2024, 1, 5, 10, 0, 0, 0⟩,
        status := Status.Present } }

/-- A ledger entry dated at the final millisecond of its day. -/
def cexEntry : LedgerEntry :=
  { userId := "u1", bus := "B1", date := ⟨2024, 5, 17, 23, 59, 59, 999⟩,
    status := Status.Present }

/-- A scan instant around midday of that same day. -/
def cexNow : DateTime := ⟨2024, 5, 17, 12, 0, 0, 0⟩

/-! ## Day-window lemmas -/

theorem dayStart_congr {a b : DateTime} (h : sameDay a b) : dayStart a = dayStart b := by
  obtain ⟨h1, h2, h3⟩ := h
  simp [dayStart, h1, h2, h3]

theorem dayEndCheck_congr {a b : DateTime} (h : sameDay a b) : dayEndCheck a = dayEndCheck b := by
  obtain ⟨h1, h2, h3⟩ := h
  simp [dayEndCheck, h1, h2, h3]

theorem inToday_congr {a b : DateTime} (h : sameDay a b) : inToday a = inToday b := by
  funext d
  simp [inToday, dayStart_congr h, dayEndCheck_congr h]

theorem todayPred_congr (uid : String) {a b : DateTime} (h : sameDay a b) :
    todayPred uid a = todayPred uid b := by
  funext e
  simp [todayPred, inToday_congr h]

theorem findToday_congr (led : List LedgerEntry) (uid : String) {a b : DateTime}
    (h : sameDay a b) : findToday led uid a = findToday led uid b := by
  simp [findToday, todayPred_congr uid h]

theorem countToday_congr (led : List LedgerEntry) (uid : String) {a b : DateTime}
    (h : sameDay a b) : countToday led uid a = countToday led uid b := by
  simp [countToday, todayPred_congr uid h]

theorem countToday_eq_zero_iff {led : List LedgerEntry} {uid : String} {now : DateTime} :
    countToday led uid now = 0 ↔ ∀ e ∈ led, todayPred uid now e = false := by
  simp [countToday, List.countP_eq_zero]

theorem findToday_eq_none_iff {led : List LedgerEntry} {uid : String} {now : DateTime} :
    findToday led uid now = none ↔ ∀ e ∈ led, todayPred uid now e = false := by
  simp [findToday, List.find?_eq_none]

theorem findToday_append_left {led ex : List LedgerEntry} {uid : String} {now : DateTime}
    (h : (findToday led uid now).isSome) : (findToday (led ++ ex) uid now).isSome := by
  unfold findToday at *
  rw [List.find?_append]
  cases h2 : List.find? (todayPred uid now) led with
  | none => rw [h2] at h; simp at h
  | some v => simp [Option.or, h2]

theorem dtLt_iff (a b : DateTime) : dtLt a b = true ↔
    (a.year < b.year ∨ (a.year = b.year ∧ (a.month < b.month ∨ (a.month = b.month ∧
      (a.day < b.day ∨ (a.day = b.day ∧ (a.hour < b.hour ∨ (a.hour = b.hour ∧
      (a.minute < b.minute ∨ (a.minute = b.minute ∧ (a.second < b.second ∨
      (a.second = b.second ∧ a.ms < b.ms)))))))))))) := by
  simp [dtLt]

theorem dtLe_iff (a b : DateTime) : dtLe a b = true ↔ (dtLt a b = true ∨ a = b) := by
  simp [dtLe]

/-! ## C4 — the existence-check day window

The spec describes the window as the half-open interval from local
midnight to the next local midnight.  The code builds the upper bound
as 23:59:59.999 of the same day and queries with a strict comparison,
so the final millisecond of the day is excluded: the window actually
checked is [midnight, 23:59:59.999). -/

/-- C4 (amended): the day window used by both scan and the sweep to
decide whether a LedgerEntry already exists for today is
[local midnight, 23:59:59.999): a LedgerEntry dated anywhere within
the current calendar day satisfies the existence-check predicate
exactly when its time of day is not the final millisecond
23:59:59.999, which falls inside the calendar day but outside the
queried window. -/
theorem today_window_excludes_final_ms :
    ∀ (now d : DateTime), sameDay d now →
      0 ≤ d.hour → d.hour ≤ 23 → 0 ≤ d.minute → d.minute ≤ 59 →
      0 ≤ d.second → d.second ≤ 59 → 0 ≤ d.ms → d.ms ≤ 999 →
      (inToday now d = true ↔
        ¬ (d.hour = 23 ∧ d.minute = 59 ∧ d.second = 59 ∧ d.ms = 999)) := by
  intro now d hday h1 h2 h3 h4 h5 h6 h7 h8
  obtain ⟨hy, hm, hd⟩ := hday
  have e1 : dayStart now = ⟨now.year, now.month, now.day, 0, 0, 0, 0⟩ := rfl
  have e2 : dayEndCheck now = ⟨now.year, now.month, now.day, 23, 59, 59, 999⟩ := rfl
  obtain ⟨dy, dmo, dd2, dh, dmi, ds, dms⟩ := d
  simp only [inToday, Bool.and_eq_true, dtLe_iff, dtLt_iff, e1, e2,
    DateTime.mk.injEq] at *
  omega

/-- C4 witness: a mid-day entry on the scan day is inside the checked
window. -/
theorem today_window_excludes_final_ms_witness :
    inToday cexNow ⟨2024, 5, 17, 8, 0, 0, 0⟩ = true ↔
      ¬ ((DateTime.mk 2024 5 17 8 0 0 0).hour = 23 ∧
         (DateTime.mk 2024 5 17 8 0 0 0).minute = 59 ∧
         (DateTime.mk 2024 5 17 8 0 0 0).second = 59 ∧
         (DateTime.mk 2024 5 17 8 0 0 0).ms = 999) :=
  today_window_excludes_final_ms cexNow ⟨2024, 5, 17, 8, 0, 0, 0⟩
    (by decide) (by decide) (by decide) (by decide) (by decide)
    (by decide) (by decide) (by decide) (by decide)

/-- C4 counterexample: an entry dated 23:59:59.999 lies within the
current calendar day — at or after local midnight and strictly before
the next local midnight — yet the existence check used by scan and the
sweep does not find it, refuting the claimed [midnight, midnight+24h)
window. -/
theorem today_window_final_ms_cex :
    dtLe (dayStart cexNow) cexEntry.date = true
    ∧ dtLt cexEntry.date ⟨2024, 5, 18, 0, 0, 0, 0⟩ = true
    ∧ findToday [cexEntry] "u1" cexNow = none := by decide

/-! ## C9 — roster listing -/

theorem listByGroup_map_secrets (f : Identity → Identity)
    (hf : ∀ u, (f u).name = u.name ∧ (f u).userId = u.userId ∧ (f u).bus = u.bus ∧
      (f u).role = u.role ∧ (f u).attendance = u.attendance) (b : String) :
    ∀ us : List Identity,
      ((us.map f).filter (fun u => u.bus == b && u.role == Role.user)).map publicView
        = (us.filter (fun u => u.bus == b && u.role == Role.user)).map publicView := by
  intro us
  induction us with
  | nil => rfl
  | cons u rest ih =>
    obtain ⟨h1, h2, h3, h4, h5⟩ := hf u
    simp only [List.map_cons, List.filter_cons, h3, h4]
    by_cases hc : (u.bus == b && u.role == Role.user) = true
    · simp only [hc, if_true, List.map_cons, ih]
      have : publicView (f u) = publicView u := by
        simp [publicView, h1, h2, h3, h4, h5]
      rw [this]
    · simp only [Bool.not_eq_true] at hc
      simp only [hc, Bool.false_eq_true, if_false, ih]

/-- C9: listByGroup returns exactly the role-user identities of the
given group, projected through the view that omits the credential hash
and the QR payload; it performs no writes, and its output is invariant
under arbitrary modification of the password and qrCode fields of
every stored user (confidentiality: the secrets cannot influence what
callers receive). -/
theorem listByGroup_confidential :
    ∀ (s : Store) (b : String),
      (listByGroup s b).2 = s
      ∧ (∀ r ∈ (listByGroup s b).1,
          ∃ u, u ∈ s.users ∧ u.bus = b ∧ u.role = Role.user ∧ r = publicView u)
      ∧ (∀ u ∈ s.users, u.bus = b → u.role = Role.user →
          publicView u ∈ (listByGroup s b).1)
      ∧ (∀ f : Identity → Identity,
          (∀ u, (f u).name = u.name ∧ (f u).userId = u.userId ∧ (f u).bus = u.bus ∧
            (f u).role = u.role ∧ (f u).attendance = u.attendance) →
          (listByGroup { users := s.users.map f, ledger := s.ledger } b).1
            = (listByGroup s b).1) := by
  intro s b
  refine ⟨rfl, ?_, ?_, ?_⟩
  · intro r hr
    simp only [listByGroup, List.mem_map, List.mem_filter, Bool.and_eq_true,
      beq_iff_eq] at hr
    obtain ⟨u, ⟨hu, hb, hrole⟩, rfl⟩ := hr
    exact ⟨u, hu, hb, hrole, rfl⟩
  · intro u hu hb hrole
    simp only [listByGroup, List.mem_map, List.mem_filter, Bool.and_eq_true,
      beq_iff_eq]
    exact ⟨u, ⟨hu, hb, hrole⟩, rfl⟩
  · intro f hf
    simpa only [listByGroup] using listByGroup_map_secrets f hf b s.users

/-- C9 witness: the listing of bus B1 over the demo store. -/
theorem listByGroup_confidential_witness :
    (listByGroup demoStore "B1").2 = demoStore :=
  (listByGroup_confidential demoStore "B1").1

/-! ## Scan-route lemmas -/

theorem sameDay_symm {a b : DateTime} (h : sameDay a b) : sameDay b a :=
  ⟨h.1.symm, h.2.1.symm, h.2.2.symm⟩

theorem findUser_userId {us : List Identity} {uid : String} {u : Identity}
    (h : findUser us uid = some u) : u.userId = uid := by
  have h2 : List.find? (fun v => v.userId == uid) us = some u := h
  have := List.find?_some h2
  simpa using this

theorem scan_success_eq (s : Store) (sd ab : String) (now : DateTime)
    (pl : DecodedPayload) (u : Identity)
    (hsd : sd ≠ "") (hab : ab ≠ "")
    (hdec : decodePayload sd = DecodeResult.ok pl)
    (hfind : findUser s.users pl.userId = some u)
    (hbus : pl.bus = some ab) :
    scan s sd ab now =
      (ScanResult.okScan u.name u.bus,
       { users := markPresent s.users pl.userId,
         ledger :=
           if (findToday s.ledger u.userId now).isSome then s.ledger
           else s.ledger ++
             [{ userId := u.userId, bus := u.bus, date := now, status := Status.Present }] }) := by
  unfold scan
  rw [if_neg (by simp [hsd, hab]), hdec]
  dsimp only
  rw [hfind]
  dsimp only
  rw [if_neg (by simp [hbus])]

theorem scan_unchanged_on_mismatch (s : Store) (sd ab : String) (now : DateTime)
    (pl : DecodedPayload)
    (hdec : decodePayload sd = DecodeResult.ok pl)
    (hbus : pl.bus ≠ some ab) :
    (scan s sd ab now).2 = s := by
  unfold scan
  by_cases h0 : sd = "" ∨ ab = ""
  · rw [if_pos h0]
  · rw [if_neg h0, hdec]
    dsimp only
    cases hfu : findUser s.users pl.userId with
    | none => rfl
    | some u =>
      dsimp only
      rw [if_pos hbus]

theorem markPresent_findUser (us : List Identity) (uid : String) :
    findUser (markPresent us uid) uid
      = Option.map (fun u => { u with attendance := Status.Present }) (findUser us uid) := by
  induction us with
  | nil => rfl
  | cons u rest ih =>
    by_cases h : u.userId == uid
    · simp only [markPresent, findUser, h, if_true, List.find?]
      simp [h]
    · simp only [Bool.not_eq_true] at h
      simp only [markPresent, findUser, h, Bool.false_eq_true, if_false, List.find?]
      simpa [findUser] using ih

/-! ## C1 — group mismatch is purely rejective -/

/-- C1 (amended): whenever the decoded payload's group differs from
the scanning station's group, scan writes nothing at all — the store
(users with their attendance flags, and the ledger) is returned
unchanged; when additionally the payload's identity key is found in
the store, the request fails precisely with GroupMismatch.  (As stated
the claim also demanded GroupMismatch when the identity key is
unknown, but there the route answers IdentityNotFound — see the
counterexample.) -/
theorem scan_group_mismatch_rejective :
    (∀ (s : Store) (sd ab : String) (now : DateTime) (pl : DecodedPayload),
      decodePayload sd = DecodeResult.ok pl → pl.bus ≠ some ab →
      (scan s sd ab now).2 = s)
    ∧ (∀ (s : Store) (sd ab : String) (now : DateTime) (pl : DecodedPayload) (u : Identity),
      sd ≠ "" → ab ≠ "" →
      decodePayload sd = DecodeResult.ok pl →
      findUser s.users pl.userId = some u →
      pl.bus ≠ some ab →
      scan s sd ab now = (ScanResult.groupMismatch, s)) := by
  constructor
  · exact scan_unchanged_on_mismatch
  · intro s sd ab now pl u hsd hab hdec hfind hbus
    unfold scan
    rw [if_neg (by simp [hsd, hab]), hdec]
    dsimp only
    rw [hfind]
    dsimp only
    rw [if_pos hbus]

/-- C1 witness: scanning the registered sample payload at a B2 station
fails with GroupMismatch and leaves the store untouched. -/
theorem scan_group_mismatch_rejective_witness :
    scan demoStore demoPayload "B2" demoNow = (ScanResult.groupMismatch, demoStore) :=
  scan_group_mismatch_rejective.2 demoStore demoPayload "B2" demoNow
    ⟨"u1", some "Alice", some "B1", some "user"⟩ demoU
    (by decide) (by decide) (by decide) (by decide) (by decide)

/-- C1 counterexample: a payload whose group (B1) differs from the
station's group (B2) but whose identity key is unregistered makes scan
fail with IdentityNotFound, not with GroupMismatch, refuting the
claim's unconditional "fails with GroupMismatch". -/
theorem scan_group_mismatch_not_found_cex :
    decodePayload ghostPayload
        = DecodeResult.ok ⟨"ghost", some "G", some "B1", some "user"⟩
    ∧ ScanResult.userNotFound ≠ ScanResult.groupMismatch
    ∧ scan emptyStore ghostPayload "B2" demoNow = (ScanResult.userNotFound, emptyStore) := by
  decide

/-! ## C8 — the inserted entry copies the stored group -/

/-- C8: when a successful scan inserts a new LedgerEntry, the entry's
group is the group currently stored on the Identity record
(`user.bus`), not the group carried inside the decoded payload. -/
theorem scan_insert_uses_store_group :
    ∀ (s : Store) (sd ab : String) (now : DateTime) (pl : DecodedPayload) (u : Identity),
      sd ≠ "" → ab ≠ "" →
      decodePayload sd = DecodeResult.ok pl →
      findUser s.users pl.userId = some u →
      pl.bus = some ab →
      (findToday s.ledger u.userId now).isSome = false →
      ((scan s sd ab now).2).ledger
        = s.ledger ++
          [{ userId := u.userId, bus := u.bus, date := now, status := Status.Present }] := by
  intro s sd ab now pl u hsd hab hdec hfind hbus hex
  rw [scan_success_eq s sd ab now pl u hsd hab hdec hfind hbus]
  simp [hex]

/-- C8 witness: the payload still claims bus B1 (matching the
station), the store meanwhile holds bus B9 for that user, and the
inserted entry records B9 — the stored group, not the payload's. -/
theorem scan_insert_uses_store_group_witness :
    ((scan c8Store c8Payload "B1" demoNow).2).ledger
      = c8Store.ledger ++
        [{ userId := c8User.userId, bus := c8User.bus, date := demoNow,
           status := Status.Present }] :=
  scan_insert_uses_store_group c8Store c8Payload "B1" demoNow
    ⟨"u2", some "Bob", some "B1", some "user"⟩ c8User
    (by decide) (by decide) (by decide) (by decide) (by decide) (by decide)

/-! ## C2 — rescanning the same day is a ledger no-op -/

/-- C2: if a LedgerEntry already exists for the decoded identity in
today's window, any scan leaves the ledger exactly as it was; and a
successful first scan followed by a second scan of the same payload on
the same day leaves the second ledger identical to the first, holding
exactly one entry for that identity in the day's window, every such
entry carrying status Present. -/
theorem scan_ledger_idempotent :
    (∀ (s : Store) (sd ab : String) (now : DateTime) (pl : DecodedPayload),
      decodePayload sd = DecodeResult.ok pl →
      (findToday s.ledger pl.userId now).isSome = true →
      ((scan s sd ab now).2).ledger = s.ledger)
    ∧ (∀ (s : Store) (sd ab : String) (now now2 : DateTime) (pl : DecodedPayload)
        (u : Identity),
      sd ≠ "" → ab ≠ "" →
      decodePayload sd = DecodeResult.ok pl →
      findUser s.users pl.userId = some u →
      pl.bus = some ab →
      sameDay now now2 →
      inToday now now = true →
      countToday s.ledger pl.userId now = 0 →
      ((scan ((scan s sd ab now).2) sd ab now2).2).ledger = ((scan s sd ab now).2).ledger
      ∧ countToday ((scan ((scan s sd ab now).2) sd ab now2).2).ledger pl.userId now2 = 1
      ∧ ∀ e ∈ ((scan ((scan s sd ab now).2) sd ab now2).2).ledger,
          todayPred pl.userId now2 e = true → e.status = Status.Present) := by
  constructor
  · intro s sd ab now pl hdec hex
    unfold scan
    by_cases h0 : sd = "" ∨ ab = ""
    · rw [if_pos h0]
    · rw [if_neg h0, hdec]
      dsimp only
      cases hfu : findUser s.users pl.userId with
      | none => rfl
      | some u =>
        dsimp only
        by_cases hbus : pl.bus ≠ some ab
        · rw [if_pos hbus]
        · rw [if_neg hbus]
          dsimp only
          have huid : u.userId = pl.userId := findUser_userId hfu
          rw [huid, hex]
          simp
  · intro s sd ab now now2 pl u hsd hab hdec hfind hbus hday hnow hcnt
    have hday2 : sameDay now2 now := sameDay_symm hday
    have huid : u.userId = pl.userId := findUser_userId hfind
    have hnone : findToday s.ledger pl.userId now = none :=
      findToday_eq_none_iff.mpr (countToday_eq_zero_iff.mp hcnt)
    have hnoneu : findToday s.ledger u.userId now = none := by rw [huid]; exact hnone
    have h1 : scan s sd ab now =
        (ScanResult.okScan u.name u.bus,
         { users := markPresent s.users pl.userId,
           ledger := s.ledger ++
             [{ userId := u.userId, bus := u.bus, date := now,
                status := Status.Present }] }) := by
      rw [scan_success_eq s sd ab now pl u hsd hab hdec hfind hbus, hnoneu]
      simp
    have hfind2 : findUser (markPresent s.users pl.userId) pl.userId
        = some { u with attendance := Status.Present } := by
      rw [markPresent_findUser, hfind]
      rfl
    have hpnewu : todayPred u.userId now
        { userId := u.userId, bus := u.bus, date := now, status := Status.Present }
        = true := by
      simp [todayPred, hnow]
    have hpnew : todayPred pl.userId now
        { userId := u.userId, bus := u.bus, date := now, status := Status.Present }
        = true := by
      simp [todayPred, huid, hnow]
    have hfound2 : (findToday
        (s.ledger ++
          [{ userId := u.userId, bus := u.bus, date := now, status := Status.Present }])
        ({ u with attendance := Status.Present } : Identity).userId now2).isSome = true := by
      show (findToday _ u.userId now2).isSome = true
      rw [findToday_congr _ _ hday2]
      unfold findToday
      rw [List.find?_append]
      have hnu : List.find? (todayPred u.userId now) s.ledger = none := hnoneu
      rw [hnu]
      simp [List.find?, hpnewu]
    have h2 : scan ((scan s sd ab now).2) sd ab now2 =
        (ScanResult.okScan u.name u.bus,
         { users := markPresent (markPresent s.users pl.userId) pl.userId,
           ledger := s.ledger ++
             [{ userId := u.userId, bus := u.bus, date := now,
                status := Status.Present }] }) := by
      rw [h1]
      dsimp only
      rw [scan_success_eq _ sd ab now2 pl { u with attendance := Status.Present }
        hsd hab hdec hfind2 hbus]
      dsimp only
      rw [hfound2]
      simp
    refine ⟨?_, ?_, ?_⟩
    · rw [h2, h1]
    · rw [h2]
      show countToday (s.ledger ++ _) pl.userId now2 = 1
      rw [countToday_congr _ _ hday2]
      unfold countToday
      rw [List.countP_append]
      have hc : List.countP (todayPred pl.userId now) s.ledger = 0 := hcnt
      rw [hc]
      simp [List.countP_cons, hpnew]
    · rw [h2]
      intro e he hpred
      dsimp only at he
      rcases List.mem_append.mp he with hl | hr
      · exfalso
        have hfalse := countToday_eq_zero_iff.mp hcnt e hl
        rw [todayPred_congr pl.userId hday2] at hpred
        rw [hpred] at hfalse
        simp at hfalse
      · have he2 : e = LedgerEntry.mk u.userId u.bus now Status.Present := by
          simpa using hr
        rw [he2]

/-- C2 witness: scanning the sample user twice on the leap day leaves
the second ledger identical to the first. -/
theorem scan_ledger_idempotent_witness :
    ((scan ((scan demoStore demoPayload "B1" demoNow).2) demoPayload "B1" demoNow2).2).ledger
      = ((scan demoStore demoPayload "B1" demoNow).2).ledger :=
  (scan_ledger_idempotent.2 demoStore demoPayload "B1" demoNow demoNow2
    ⟨"u1", some "Alice", some "B1", some "user"⟩ demoU
    (by decide) (by decide) (by decide) (by decide) (by decide) (by decide)
    (by decide) (by decide)).1

/-! ## C5 — the auto-absent sweep -/
theorem findToday_append_none {led ex : List LedgerEntry} {uid : String} {now : DateTime}
    (h : findToday (led ++ ex) uid now = none) : findToday led uid now = none := by
  unfold findToday at *
  rw [List.find?_append] at h
  cases h2 : List.find? (todayPred uid now) led with
  | none => rfl
  | some v => rw [h2] at h; simp [Option.or] at h

theorem sweepLoop_shape (now : DateTime) :
    ∀ (us : List Identity) (led : List LedgerEntry),
      ∃ ex, sweepLoop now us led = led ++ ex
        ∧ ∀ e ∈ ex, e.status = Status.Absent ∧ e.date = now
            ∧ findToday led e.userId now = none := by
  intro us
  induction us with
  | nil =>
    intro led
    exact ⟨[], by simp [sweepLoop], by simp⟩
  | cons u rest ih =>
    intro led
    by_cases hc : (findToday led u.userId now).isSome
    · obtain ⟨ex, heq, hprop⟩ := ih led
      refine ⟨ex, ?_, hprop⟩
      rw [sweepLoop, if_pos hc]
      exact heq
    · obtain ⟨ex, heq, hprop⟩ :=
        ih (led ++ [{ userId := u.userId, bus := u.bus, date := now, status := Status.Absent }])
      refine ⟨{ userId := u.userId, bus := u.bus, date := now, status := Status.Absent } :: ex,
        ?_, ?_⟩
      · rw [sweepLoop, if_neg hc, heq, List.append_assoc]
        rfl
      · intro e he
        rcases List.mem_cons.mp he with rfl | hmem
        · exact ⟨rfl, rfl, Option.not_isSome_iff_eq_none.mp hc⟩
        · obtain ⟨hst, hdt, hfind⟩ := hprop e hmem
          exact ⟨hst, hdt, findToday_append_none hfind⟩

theorem sweepLoop_mono (now : DateTime) {led : List LedgerEntry} {uid : String}
    (h : (findToday led uid now).isSome) (us : List Identity) :
    (findToday (sweepLoop now us led) uid now).isSome := by
  obtain ⟨ex, heq, _⟩ := sweepLoop_shape now us led
  rw [heq]
  exact findToday_append_left h

theorem sweepLoop_covers (now : DateTime) (hnow : inToday now now = true) :
    ∀ (us : List Identity) (led : List LedgerEntry) (u : Identity), u ∈ us →
      (findToday (sweepLoop now us led) u.userId now).isSome := by
  intro us
  induction us with
  | nil => intro led u hu; simp at hu
  | cons u0 rest ih =>
    intro led u hu
    rcases List.mem_cons.mp hu with rfl | hmem
    · by_cases hc : (findToday led u.userId now).isSome
      · rw [sweepLoop, if_pos hc]
        exact sweepLoop_mono now hc rest
      · rw [sweepLoop, if_neg hc]
        apply sweepLoop_mono
        unfold findToday
        rw [List.find?_append]
        cases h2 : List.find? (todayPred u.userId now) led with
        | some v => simp [Option.or]
        | none => simp [List.find?, todayPred, hnow]
    · rw [sweepLoop]
      exact ih _ u hmem

theorem sweepLoop_noop (now : DateTime) :
    ∀ (us : List Identity) (led : List LedgerEntry),
      (∀ u ∈ us, (findToday led u.userId now).isSome) → sweepLoop now us led = led := by
  intro us
  induction us with
  | nil => intro led _; rfl
  | cons u0 rest ih =>
    intro led h
    rw [sweepLoop, if_pos (h u0 (List.mem_cons_self u0 rest))]
    exact ih led (fun u hu => h u (List.mem_cons_of_mem u0 hu))

theorem sweepLoop_count_preserved (now : DateTime) :
    ∀ (us : List Identity) (led : List LedgerEntry) (uid : String),
      countToday led uid now = 1 → countToday (sweepLoop now us led) uid now = 1 := by
  intro us
  induction us with
  | nil => intro led uid h; simpa [sweepLoop] using h
  | cons u0 rest ih =>
    intro led uid h1
    by_cases hc : (findToday led u0.userId now).isSome
    · rw [sweepLoop, if_pos hc]
      exact ih led uid h1
    · have hne : u0.userId ≠ uid := by
        intro heq
        have hn : findToday led u0.userId now = none := Option.not_isSome_iff_eq_none.mp hc
        rw [heq] at hn
        have h0 : countToday led uid now = 0 :=
          countToday_eq_zero_iff.mpr (findToday_eq_none_iff.mp hn)
        omega
      rw [sweepLoop, if_neg hc]
      apply ih
      unfold countToday at *
      rw [List.countP_append, h1]
      simp [List.countP_cons, todayPred, hne]

theorem sweepLoop_count_one (now : DateTime) (hnow : inToday now now = true) :
    ∀ (us : List Identity) (led : List LedgerEntry) (uid : String),
      countToday led uid now = 0 → (∃ u ∈ us, u.userId = uid) →
      countToday (sweepLoop now us led) uid now = 1 := by
  intro us
  induction us with
  | nil =>
    intro led uid _ hex
    obtain ⟨u, hu, _⟩ := hex
    simp at hu
  | cons u0 rest ih =>
    intro led uid h0 hex
    by_cases heq : u0.userId = uid
    · have hn : findToday led u0.userId now = none := by
        rw [heq]
        exact findToday_eq_none_iff.mpr (countToday_eq_zero_iff.mp h0)
      have hc : ¬ (findToday led u0.userId now).isSome = true := by simp [hn]
      rw [sweepLoop, if_neg hc]
      apply sweepLoop_count_preserved
      unfold countToday at *
      rw [List.countP_append, h0]
      simp [List.countP_cons, todayPred, heq, hnow]
    · have hex2 : ∃ u ∈ rest, u.userId = uid := by
        obtain ⟨u, hu, huid⟩ := hex
        rcases List.mem_cons.mp hu with rfl | hmem
        · exact absurd huid heq
        · exact ⟨u, hmem, huid⟩
      by_cases hc : (findToday led u0.userId now).isSome
      · rw [sweepLoop, if_pos hc]
        exact ih led uid h0 hex2
      · rw [sweepLoop, if_neg hc]
        apply ih _ uid _ hex2
        unfold countToday at *
        rw [List.countP_append, h0]
        simp [List.countP_cons, todayPred, heq]



/-- C5: the auto-absent sweep appends only Absent entries dated now
and never touches existing rows; every role-user identity with no
entry in today's window ends with exactly one entry there, an Absent
one; identities already covered keep their window rows exactly; and a
second invocation on the same day is a complete no-op on the store. -/
theorem autoAbsent_idempotent :
    ∀ (s : Store) (now now2 : DateTime),
      sameDay now now2 →
      inToday now now = true →
      autoAbsent (autoAbsent s now) now2 = autoAbsent s now
      ∧ (∃ ex, (autoAbsent s now).ledger = s.ledger ++ ex
          ∧ ∀ e ∈ ex, e.status = Status.Absent ∧ e.date = now)
      ∧ (∀ u ∈ s.users, u.role = Role.user →
          countToday s.ledger u.userId now = 0 →
          countToday (autoAbsent s now).ledger u.userId now = 1
          ∧ ∀ e ∈ (autoAbsent s now).ledger, todayPred u.userId now e = true →
              e.status = Status.Absent ∧ e.date = now)
      ∧ (∀ u ∈ s.users, (findToday s.ledger u.userId now).isSome = true →
          ((autoAbsent s now).ledger).filter (todayPred u.userId now)
            = s.ledger.filter (todayPred u.userId now)) := by
  intro s now now2 hday hnow
  have hled : (autoAbsent s now).ledger
      = sweepLoop now (s.users.filter (fun u => u.role == Role.user)) s.ledger := rfl
  refine ⟨?_, ?_, ?_, ?_⟩
  · have h3 : autoAbsent s now = Store.mk s.users
        (sweepLoop now (s.users.filter (fun u => u.role == Role.user)) s.ledger) := rfl
    have h2 : autoAbsent (autoAbsent s now) now2 = Store.mk s.users
        (sweepLoop now2 (s.users.filter (fun u => u.role == Role.user))
          (sweepLoop now (s.users.filter (fun u => u.role == Role.user)) s.ledger)) := rfl
    rw [h2, h3]
    have hcov : ∀ u ∈ s.users.filter (fun u => u.role == Role.user),
        (findToday (sweepLoop now (s.users.filter (fun u => u.role == Role.user)) s.ledger)
          u.userId now2).isSome := by
      intro u hu
      rw [findToday_congr _ _ (sameDay_symm hday)]
      exact sweepLoop_covers now hnow _ s.ledger u hu
    rw [sweepLoop_noop now2 _ _ hcov]
  · obtain ⟨ex, heq, hprop⟩ := sweepLoop_shape now (s.users.filter (fun u => u.role == Role.user)) s.ledger
    exact ⟨ex, by rw [hled, heq], fun e he => ⟨(hprop e he).1, (hprop e he).2.1⟩⟩
  · intro u hu hrole h0
    constructor
    · rw [hled]
      apply sweepLoop_count_one now hnow _ s.ledger u.userId h0
      exact ⟨u, List.mem_filter.mpr ⟨hu, by simp [hrole]⟩, rfl⟩
    · intro e he hpred
      obtain ⟨ex, heq, hprop⟩ :=
        sweepLoop_shape now (s.users.filter (fun u => u.role == Role.user)) s.ledger
      rw [hled, heq] at he
      rcases List.mem_append.mp he with hl | hr
      · exfalso
        have hfalse := countToday_eq_zero_iff.mp h0 e hl
        rw [hpred] at hfalse
        simp at hfalse
      · exact ⟨(hprop e hr).1, (hprop e hr).2.1⟩
  · intro u hu hsome
    obtain ⟨ex, heq, hprop⟩ :=
      sweepLoop_shape now (s.users.filter (fun u => u.role == Role.user)) s.ledger
    rw [hled, heq, List.filter_append]
    have hnil : ex.filter (todayPred u.userId now) = [] := by
      rw [List.filter_eq_nil_iff]
      intro e he hpred
      have heuid : e.userId = u.userId := by
        have := hpred
        simp [todayPred, Bool.and_eq_true, beq_iff_eq] at this
        exact this.1
      have hn := (hprop e he).2.2
      rw [heuid] at hn
      rw [hn] at hsome
      simp at hsome
    rw [hnil, List.append_nil]

/-- C5 witness: on a store where one user is already Present and the
other unscanned, a second same-day sweep changes nothing. -/
theorem autoAbsent_idempotent_witness :
    autoAbsent (autoAbsent sweepStore demoNow) demoNow2 = autoAbsent sweepStore demoNow :=
  (autoAbsent_idempotent sweepStore demoNow demoNow2 (by decide) (by decide)).1

/-! ## C10 — absentDays is not clamped -/

/-- C10: absentDays can go negative — a store whose January 2024
window holds 32 Present rows for one identity (more Present rows than
the 31 calendar days) makes monthlySummary return absentDays = -1,
since the route subtracts without clamping. -/
theorem monthlySummary_negative_absent :
    (monthlySummary c10Store "u1" 1 2024).presentDays = 32
    ∧ (monthlySummary c10Store "u1" 1 2024).totalDays = 31
    ∧ (monthlySummary c10Store "u1" 1 2024).absentDays = -1
    ∧ (monthlySummary c10Store "u1" 1 2024).absentDays < 0 := by decide

/-! ## C3 — the monthly summary -/


theorem daysInMonth_eq_spec (year month : Int) (h1 : 1 ≤ month) (h2 : month ≤ 12) :
    daysInMonth year month = specDaysInMonth year month := by
  have hiff : ((year % 4 = 0 ∧ ¬ year % 100 = 0) ∨ year % 400 = 0) ↔
      ((4 ∣ year ∧ ¬ (100 ∣ year)) ∨ 400 ∣ year) := by omega
  have hm : month = 1 ∨ month = 2 ∨ month = 3 ∨ month = 4 ∨ month = 5 ∨ month = 6 ∨
      month = 7 ∨ month = 8 ∨ month = 9 ∨ month = 10 ∨ month = 11 ∨ month = 12 := by omega
  rcases hm with rfl | rfl | rfl | rfl | rfl | rfl | rfl | rfl | rfl | rfl | rfl | rfl <;>
    simp [daysInMonth, specDaysInMonth, hiff]

/-- C3: monthlySummary reports totalDays equal to the true day count
of the month (by the standard leap rule — in particular 29 for
February 2024 and 28 for February 2023), presentDays equal to the
number of Present ledger rows of the identity inside the month window,
absentDays equal to their difference, and, for an identity with no
ledger rows, zero matches and absentDays = totalDays. -/
theorem monthlySummary_correct :
    (∀ (s : Store) (uid : String) (month year : Int),
      1 ≤ month → month ≤ 12 →
      (monthlySummary s uid month year).totalDays = specDaysInMonth year month)
    ∧ (∀ (s : Store) (uid : String),
      (monthlySummary s uid 2 2024).totalDays = 29
      ∧ (monthlySummary s uid 2 2023).totalDays = 28)
    ∧ (∀ (s : Store) (uid : String) (month year : Int),
      (monthlySummary s uid month year).presentDays
        = ((s.ledger.filter (fun e => e.userId == uid
            && dtLe (monthStart year month) e.date
            && dtLe e.date (monthEnd year month)
            && e.status == Status.Present)).length : Int))
    ∧ (∀ (s : Store) (uid : String) (month year : Int),
      (monthlySummary s uid month year).absentDays
        = (monthlySummary s uid month year).totalDays
          - (monthlySummary s uid month year).presentDays)
    ∧ (∀ (s : Store) (uid : String) (month year : Int),
      (∀ e ∈ s.ledger, e.userId ≠ uid) →
      (monthlySummary s uid month year).details = []
      ∧ (monthlySummary s uid month year).presentDays = 0
      ∧ (monthlySummary s uid month year).absentDays
          = (monthlySummary s uid month year).totalDays) := by
  refine ⟨?_, ?_, ?_, ?_, ?_⟩
  · intro s uid month year h1 h2
    show daysInMonth year month = specDaysInMonth year month
    exact daysInMonth_eq_spec year month h1 h2
  · intro s uid
    constructor
    · show daysInMonth 2024 2 = 29
      norm_num [daysInMonth]
    · show daysInMonth 2023 2 = 28
      norm_num [daysInMonth]
  · intro s uid month year
    show (((s.ledger.filter (fun e => e.userId == uid
        && dtLe (monthStart year month) e.date
        && dtLe e.date (monthEnd year month))).filter
          (fun r => r.status == Status.Present)).length : Int) = _
    rw [List.filter_filter]
    congr 2
    apply List.filter_congr
    intro e _
    cases e.userId == uid <;> cases dtLe (monthStart year month) e.date <;>
      cases dtLe e.date (monthEnd year month) <;> cases e.status == Status.Present <;> rfl
  · intro s uid month year
    rfl
  · intro s uid month year hun
    have hnil : s.ledger.filter (fun e => e.userId == uid
        && dtLe (monthStart year month) e.date
        && dtLe e.date (monthEnd year month)) = [] := by
      rw [List.filter_eq_nil_iff]
      intro e he
      simp [hun e he]
    refine ⟨?_, ?_, ?_⟩
    · show s.ledger.filter _ = []
      exact hnil
    · show (((s.ledger.filter _).filter (fun r => r.status == Status.Present)).length : Int) = 0
      rw [hnil]
      rfl
    · show daysInMonth year month - (((s.ledger.filter _).filter
          (fun r => r.status == Status.Present)).length : Int) = daysInMonth year month
      rw [hnil]
      simp

/-- C3 witness: the leap-day total for the demo store. -/
theorem monthlySummary_correct_witness :
    (monthlySummary demoStore "u1" 2 2024).totalDays = specDaysInMonth 2024 2 :=
  monthlySummary_correct.1 demoStore "u1" 2 2024 (by decide) (by decide)

/-! ## C6 and C7 — the payload codec -/


theorem String_mk_data (s : String) : String.mk s.data = s := rfl

theorem bsl_ne_qc : ¬ bsl = qc := by decide

theorem parseStringBody_esc :
    ∀ (s rest : List Char), (∀ c ∈ s, 32 ≤ c.toNat) →
      parseStringBody (escChars s ++ qc :: rest) = some (s, rest) := by
  intro s
  induction s with
  | nil =>
    intro rest _
    rw [show escChars [] = [] from rfl, List.nil_append]
    unfold parseStringBody
    rw [if_pos rfl]
  | cons c cs ih =>
    intro rest hs
    have ihr := ih rest (fun x hx => hs x (List.mem_cons_of_mem c hx))
    by_cases h : c = qc ∨ c = bsl
    · rw [show escChars (c :: cs) = bsl :: c :: escChars cs from by
        simp [escChars, h]]
      rw [List.cons_append, List.cons_append]
      unfold parseStringBody
      rw [if_neg bsl_ne_qc, if_pos rfl]
      dsimp only
      rw [if_pos h, ihr]
    · have hc : ¬ c = qc := fun hq => h (Or.inl hq)
      have hb : ¬ c = bsl := fun hq => h (Or.inr hq)
      have hval : ¬ c.toNat < 32 := by
        have := hs c (List.mem_cons_self c cs)
        omega
      rw [show escChars (c :: cs) = c :: escChars cs from by simp [escChars, h]]
      rw [List.cons_append]
      unfold parseStringBody
      rw [if_neg hc, if_neg hb, if_neg hval, ihr]



theorem parseKV_member (k v : String) (rest : List Char)
    (hk : jsonSafe k) (hv : jsonSafe v) :
    parseKV (memberChars k v ++ rest) = some (k, v, rest) := by
  unfold memberChars
  rw [List.cons_append, List.append_assoc]
  rw [show (qc :: ':' :: qc :: (escChars v.data ++ [qc])) ++ rest
      = qc :: (':' :: qc :: (escChars v.data ++ qc :: rest)) from by simp]
  unfold parseKV
  dsimp only
  rw [if_pos rfl]
  rw [parseStringBody_esc k.data (':' :: qc :: (escChars v.data ++ qc :: rest)) hk]
  dsimp only
  rw [if_pos (by exact ⟨rfl, rfl⟩)]
  rw [parseStringBody_esc v.data rest hv]

theorem parseMembers_join :
    ∀ (kvs : List (String × String)), kvs ≠ [] →
      (∀ p ∈ kvs, jsonSafe p.1 ∧ jsonSafe p.2) →
      ∀ (f : Nat) (rest : List Char), rest.head? ≠ some ',' →
        parseMembers (kvs.length + f) (joinMembers kvs ++ rest) = some (kvs, rest) := by
  intro kvs
  induction kvs with
  | nil => intro h; exact absurd rfl h
  | cons p more ih =>
    intro _ hsafe f rest hrest
    obtain ⟨k, v⟩ := p
    cases more with
    | nil =>
      rw [show joinMembers [(k, v)] = memberChars k v from rfl]
      rw [show ([(k, v)] : List (String × String)).length + f = f + 1 from by
        simp [Nat.add_comm]]
      unfold parseMembers
      rw [parseKV_member k v rest (hsafe (k, v) (by simp)).1 (hsafe (k, v) (by simp)).2]
      dsimp only
      cases rest with
      | nil => rfl
      | cons c rest2 =>
        have hc : ¬ c = ',' := by
          intro hcc
          rw [hcc] at hrest
          simp at hrest
        dsimp only
        rw [if_neg hc]
    | cons p2 more2 =>
      rw [show joinMembers ((k, v) :: p2 :: more2)
          = memberChars k v ++ ',' :: joinMembers (p2 :: more2) from rfl]
      rw [show ((k, v) :: p2 :: more2).length + f = ((p2 :: more2).length + f) + 1 from by
        simp [List.length_cons]; omega]
      rw [List.append_assoc, List.cons_append]
      unfold parseMembers
      rw [parseKV_member k v (',' :: (joinMembers (p2 :: more2) ++ rest))
        (hsafe (k, v) (by simp)).1 (hsafe (k, v) (by simp)).2]
      dsimp only
      rw [if_pos rfl]
      rw [ih (by simp) (fun q hq => hsafe q (List.mem_cons_of_mem (k, v) hq)) f rest hrest]



theorem parseJson_encodeQr (k n g r : String)
    (hk : jsonSafe k) (hn : jsonSafe n) (hg : jsonSafe g) (hr : jsonSafe r) :
    parseJson (encodeQr k n g r)
      = some (JValue.objV [("userId", k), ("name", n), ("bus", g), ("role", r)]) := by
  have hsafe : ∀ p ∈ [("userId", k), ("name", n), ("bus", g), ("role", r)],
      jsonSafe p.1 ∧ jsonSafe p.2 := by
    intro p hp
    simp only [List.mem_cons, List.not_mem_nil, or_false] at hp
    rcases hp with rfl | rfl | rfl | rfl
    · exact ⟨show jsonSafe "userId" from by decide, hk⟩
    · exact ⟨show jsonSafe "name" from by decide, hn⟩
    · exact ⟨show jsonSafe "bus" from by decide, hg⟩
    · exact ⟨show jsonSafe "role" from by decide, hr⟩
  obtain ⟨t, ht⟩ : ∃ t, joinMembers [("userId", k), ("name", n), ("bus", g), ("role", r)]
      = qc :: t := ⟨_, rfl⟩
  unfold encodeQr parseJson
  rw [if_neg ?hnull]
  case hnull =>
    intro hl
    unfold nullChars at hl
    injection hl with h1 _
    exact (by decide : ¬ lbr = 'n') h1
  dsimp only
  rw [if_pos rfl]
  rw [if_neg ?hsingle]
  case hsingle =>
    intro hl
    rw [ht, List.cons_append] at hl
    injection hl with h1 _
    exact (by decide : ¬ qc = rbr) h1
  obtain ⟨f, hf⟩ : ∃ f, (joinMembers [("userId", k), ("name", n), ("bus", g), ("role", r)]
      ++ [rbr]).length + 1 = 4 + f := by
    refine ⟨(joinMembers [("userId", k), ("name", n), ("bus", g), ("role", r)]
      ++ [rbr]).length + 1 - 4, ?_⟩
    have hlen : 3 ≤ (joinMembers [("userId", k), ("name", n), ("bus", g), ("role", r)]
        ++ [rbr]).length := by
      simp [joinMembers, memberChars, List.length_append, List.length_cons]
      omega
    omega
  rw [hf]
  rw [show (4 : Nat) + f
      = ([("userId", k), ("name", n), ("bus", g), ("role", r)]).length + f from rfl]
  rw [parseMembers_join [("userId", k), ("name", n), ("bus", g), ("role", r)]
    (by simp) hsafe f [rbr] (by decide)]
  dsimp only
  rw [if_pos rfl]

/-- C6: for well-formed input — a non-empty identity key and fields
without control characters — decoding the payload produced by the
registration encoder returns exactly the four encoded fields
unchanged. -/
theorem encode_decode_roundtrip :
    ∀ (k n g r : String), k ≠ "" →
      jsonSafe k → jsonSafe n → jsonSafe g → jsonSafe r →
      decodePayload (encodeQr k n g r)
        = DecodeResult.ok { userId := k, name := some n, bus := some g, role := some r } := by
  intro k n g r hk0 hk hn hg hr
  unfold decodePayload
  rw [parseJson_encodeQr k n g r hk hn hg hr]
  dsimp only
  have l1 : lookupField [("userId", k), ("name", n), ("bus", g), ("role", r)] "userId"
      = some k := by simp [lookupField]
  have l2 : lookupField [("userId", k), ("name", n), ("bus", g), ("role", r)] "name"
      = some n := by simp [lookupField]
  have l3 : lookupField [("userId", k), ("name", n), ("bus", g), ("role", r)] "bus"
      = some g := by simp [lookupField]
  have l4 : lookupField [("userId", k), ("name", n), ("bus", g), ("role", r)] "role"
      = some r := by simp [lookupField]
  rw [l1]
  dsimp only
  rw [if_neg hk0, l2, l3, l4]

/-- C6 witness: the sample registration payload round-trips. -/
theorem encode_decode_roundtrip_witness :
    decodePayload (encodeQr "u1" "Alice" "B1" "user")
      = DecodeResult.ok (DecodedPayload.mk "u1" (some "Alice") (some "B1") (some "user")) :=
  encode_decode_roundtrip "u1" "Alice" "B1" "user"
    (by decide) (by decide) (by decide) (by decide) (by decide)



/-- C7 (amended): within the modelled payload language, decode fails
with MalformedPayload exactly when the input does not parse, and with
MissingIdentityField exactly when it parses to an object whose userId
field is absent or empty — except for a payload that parses to the
JSON null literal, a third failure mode: decoding "succeeds" with
null, the identity-field access itself throws, and the scan route
surfaces it as a generic server error rather than either documented
decode failure. -/
theorem decode_failure_modes :
    ∀ (p : String),
      (decodePayload p = DecodeResult.malformed ↔ parseJson p = none)
      ∧ (decodePayload p = DecodeResult.nullPayload ↔ parseJson p = some JValue.nullV)
      ∧ (decodePayload p = DecodeResult.missingUserId ↔
          ∃ fields, parseJson p = some (JValue.objV fields)
            ∧ (lookupField fields "userId" = none ∨ lookupField fields "userId" = some ""))
      ∧ (∀ (s : Store) (ab : String) (now : DateTime), p ≠ "" → ab ≠ "" →
          ((scan s p ab now).1 = ScanResult.serverError ↔
            parseJson p = some JValue.nullV)) := by
  intro p
  cases hp : parseJson p with
  | none =>
    have hd : decodePayload p = DecodeResult.malformed := by
      unfold decodePayload
      rw [hp]
    refine ⟨?_, ?_, ?_, ?_⟩
    · simp [hd, hp]
    · simp [hd, hp]
    · simp [hd, hp]
    · intro s ab now hp0 hab
      unfold scan
      rw [if_neg (by simp [hp0, hab]), hd]
      simp [hp]
  | some v =>
    cases v with
    | nullV =>
      have hd : decodePayload p = DecodeResult.nullPayload := by
        unfold decodePayload
        rw [hp]
      refine ⟨?_, ?_, ?_, ?_⟩
      · simp [hd, hp]
      · simp [hd, hp]
      · simp [hd, hp]
      · intro s ab now hp0 hab
        unfold scan
        rw [if_neg (by simp [hp0, hab]), hd]
        simp [hp]
    | objV fields =>
      cases hl : lookupField fields "userId" with
      | none =>
        have hd : decodePayload p = DecodeResult.missingUserId := by
          unfold decodePayload
          rw [hp]
          dsimp only
          rw [hl]
        refine ⟨?_, ?_, ?_, ?_⟩
        · simp [hd, hp]
        · simp [hd, hp]
        · simp only [hd, hp, Option.some.injEq, JValue.objV.injEq]
          constructor
          · intro _
            exact ⟨fields, rfl, Or.inl hl⟩
          · intro _
            trivial
        · intro s ab now hp0 hab
          unfold scan
          rw [if_neg (by simp [hp0, hab]), hd]
          simp [hp]
      | some uid =>
        by_cases hu : uid = ""
        · have hd : decodePayload p = DecodeResult.missingUserId := by
            unfold decodePayload
            rw [hp]
            dsimp only
            rw [hl]
            dsimp only
            rw [if_pos hu]
          refine ⟨?_, ?_, ?_, ?_⟩
          · simp [hd, hp]
          · simp [hd, hp]
          · simp only [hd, hp, Option.some.injEq, JValue.objV.injEq]
            constructor
            · intro _
              exact ⟨fields, rfl, Or.inr (by rw [hl, hu])⟩
            · intro _
              trivial
          · intro s ab now hp0 hab
            unfold scan
            rw [if_neg (by simp [hp0, hab]), hd]
            simp [hp]
        · have hd : decodePayload p = DecodeResult.ok
              { userId := uid, name := lookupField fields "name",
                bus := lookupField fields "bus", role := lookupField fields "role" } := by
            unfold decodePayload
            rw [hp]
            dsimp only
            rw [hl]
            dsimp only
            rw [if_neg hu]
          refine ⟨?_, ?_, ?_, ?_⟩
          · simp [hd, hp]
          · simp [hd, hp]
          · simp only [hd, hp, Option.some.injEq, JValue.objV.injEq]
            constructor
            · intro hfalse
              exact absurd hfalse (by simp)
            · intro hex
              obtain ⟨fields2, hf2, hor⟩ := hex
              rw [← hf2, hl] at hor
              rcases hor with h1 | h1
              · exact absurd h1 (by simp)
              · exact absurd (by injection h1) hu
          · intro s ab now hp0 hab
            unfold scan
            rw [if_neg (by simp [hp0, hab]), hd]
            dsimp only
            cases hfu : findUser s.users uid with
            | none => simp [hp]
            | some u =>
              dsimp only
              by_cases hbus : lookupField fields "bus" ≠ some ab
              · rw [if_pos hbus]
                simp [hp]
              · rw [if_neg hbus]
                simp [hp]

/-- C7 counterexample: the payload string null fails decoding with
neither MalformedPayload nor MissingIdentityField — the scan route
returns the generic 500 outcome, a third decode failure mode. -/
theorem decode_null_payload_cex :
    decodePayload "null" = DecodeResult.nullPayload
    ∧ DecodeResult.nullPayload ≠ DecodeResult.malformed
    ∧ DecodeResult.nullPayload ≠ DecodeResult.missingUserId
    ∧ scan emptyStore "null" "B1" demoNow = (ScanResult.serverError, emptyStore) := by
  decide

/-- C7 witness: the route-level characterization applied to the null
payload on the empty store. -/
theorem decode_failure_modes_witness :
    (scan emptyStore "null" "B1" demoNow).1 = ScanResult.serverError ↔
      parseJson "null" = some JValue.nullV :=
  (decode_failure_modes "null").2.2.2 emptyStore "B1" demoNow (by decide) (by decide)

end SmartTransport
